import Mathlib

/-!
Verification development for the finorax indicator/round-scoring engine.

Shallow embedding conventions:
* instants are UTC epoch seconds (`Int`); candle timestamps are epoch
  milliseconds (`Int`); timezone-awareness is a given of the typed model
  (the Python code rejects naive datetimes before computing).
* machine floats are modelled by `ℚ` (all arithmetic in the embedded code
  paths is exact on the inputs the claims quantify over);
* Python exceptions become explicit error sums (`Except`/`Option`);
* the candle-source and observation-store collaborators become function
  parameters, mirroring the constructor-injected ports of the source.

Sources embedded: `src/shared/utils/time.py`, the pure computation paths
of `src/infrastructure/indicators/ccxt_service.py`, and
`src/application/use_cases/evaluate_round.py` together with the domain
records those modules use.
-/

/-! ## `src/shared/utils/time.py` -/

/-- Models the character class `\s` of the frequency regex (ASCII range;
the claims only exercise plain spaces). -/
def isSpaceChar (c : Char) : Bool :=
  c == ' ' || c == '\t' || c == '\n' || c == '\r' || c == '\x0b' || c == '\x0c'

/-- Models the character class `\d` of the frequency regex (ASCII digits). -/
def isDigitChar (c : Char) : Bool :=
  c.isDigit

/-- `_UNITS[u.lower()]` for a unit character `u` matched by `[mhdMHD]`;
`none` for any other character (the regex would reject it). -/
def unitSeconds (u : Char) : Option Nat :=
  if u = 'm' ∨ u = 'M' then some 60
  else if u = 'h' ∨ u = 'H' then some 3600
  else if u = 'd' ∨ u = 'D' then some 86400
  else none

/-- Python `int(...)` applied to the matched digit group. -/
def digitsToNat (ds : List Char) : Nat :=
  ds.foldl (fun acc c => acc * 10 + (c.toNat - '0'.toNat)) 0

/-- `_parse_freq`: full match of `\s*(\d+)\s*([mhdMHD])\s*` followed by
`int(n) * _UNITS[u.lower()]`; `none` models the `ValueError` raised on a
non-matching string. -/
def parse_freq (s : String) : Option Nat :=
  let cs := s.data.dropWhile isSpaceChar
  let ds := cs.takeWhile isDigitChar
  let rest := cs.dropWhile isDigitChar
  if ds.isEmpty then none
  else
    match rest.dropWhile isSpaceChar with
    | [] => none
    | u :: tail =>
      match unitSeconds u with
      | none => none
      | some k => if tail.all isSpaceChar then some (digitsToNat ds * k) else none

/-- The three snapping modes accepted by `snap_to_interval`. -/
inductive SnapMode
  | floor
  | ceil
  | nearest
deriving DecidableEq

/-- Distinguishes the `ValueError` raised by `_parse_freq` from the
`ZeroDivisionError` raised by `ts % step` when `step == 0`. -/
inductive SnapError
  | invalidFreq
  | zeroDivision
deriving DecidableEq

/-- Body of `snap_to_interval` after `step` is known: `rem = ts % step`
followed by the three mode branches.  `2 * rem < step` is the exact
integer form of the source's `rem < (step / 2)`. -/
def snapVal (ts : Int) (step : Int) (mode : SnapMode) : Int :=
  let rem := ts % step
  match mode with
  | .floor => ts - rem
  | .ceil => if rem = 0 then ts else ts + (step - rem)
  | .nearest => if 2 * rem < step then ts - rem else ts + (step - rem)

/-- `snap_to_interval` on an aware UTC instant (epoch seconds). -/
def snap_to_interval (ts : Int) (freq : String) (mode : SnapMode) :
    Except SnapError Int :=
  match parse_freq freq with
  | none => .error .invalidFreq
  | some step =>
    if step = 0 then .error .zeroDivision
    else .ok (snapVal ts (step : Int) mode)

/-- The shape the spec's grammar sentence describes, word for word:
an integer followed by a unit in `{m,h,d}` (case-insensitive), with only
*surrounding* whitespace ignored.  Modelled from the spec for comparison
with `parse_freq`; note it has no whitespace slot between the digits and
the unit. -/
def specFreqShape (s : String) : Bool :=
  let cs := s.data.dropWhile isSpaceChar
  let ds := cs.takeWhile isDigitChar
  match cs.dropWhile isDigitChar with
  | [] => false
  | u :: tail => !ds.isEmpty && (unitSeconds u).isSome && tail.all isSpaceChar

/-- The language actually accepted by the source regex
`\s*(\d+)\s*([mhdMHD])\s*` (whitespace also allowed between the integer
and the unit). -/
def CodeFreqGrammar (s : String) : Prop :=
  ∃ (w1 ds w2 : List Char) (u : Char) (w3 : List Char),
    s.data = w1 ++ ds ++ w2 ++ u :: w3
    ∧ (∀ c ∈ w1, isSpaceChar c = true)
    ∧ ds ≠ []
    ∧ (∀ c ∈ ds, isDigitChar c = true)
    ∧ (∀ c ∈ w2, isSpaceChar c = true)
    ∧ (unitSeconds u).isSome
    ∧ (∀ c ∈ w3, isSpaceChar c = true)

/-! ## `src/domain/observations.py`, `src/domain/rounds.py` -/

/-- `Observation` as consumed by `EvaluateRound.run` (the repository layer
supplies the optional `id` used as `observation_id`). -/
structure Observation where
  id : Option String
  agent_id : String
  event_id : String
  asset_symbol : Option String
  factor : String
  zi_score : Option Int
deriving DecidableEq

/-- `Round`: window bounds are UTC epoch seconds. -/
structure Round where
  key : String
  window_start : Int
  window_end : Int
deriving DecidableEq

/-- `RoundAgentScore`: one row per scored observation. -/
structure RoundAgentScore where
  agent_id : String
  observation_id : String
  score : ℚ
deriving DecidableEq

/-- `RoundEvaluation`. -/
structure RoundEvaluation where
  round : Round
  agent_scores : List RoundAgentScore
deriving DecidableEq

/-! ## `src/application/use_cases/evaluate_round.py` -/

/-- Python `str.strip()`: drop whitespace from both ends. -/
def pyStrip (s : String) : String :=
  ⟨((s.data.dropWhile Char.isWhitespace).reverse.dropWhile Char.isWhitespace).reverse⟩

/-- Python `str.upper()` (ASCII case mapping). -/
def pyUpper (s : String) : String :=
  ⟨s.data.map Char.toUpper⟩

/-- `(o.asset_symbol or "").strip().upper()`. -/
def normSym (s : Option String) : String :=
  pyUpper (pyStrip (s.getD ""))

/-- Python truthiness test `not o.id` on the optional observation id. -/
def pyFalsy (s : Option String) : Bool :=
  match s with
  | none => true
  | some t => t == ""

/-- Dictionary lookup in the per-evaluation `asset_cache`. -/
def cacheLookup (cache : List (String × ℚ)) (sym : String) : Option ℚ :=
  match cache with
  | [] => none
  | (k, v) :: rest => if k = sym then some v else cacheLookup rest sym

/-- Errors fatal to `EvaluateRound.run`. -/
inductive EvalError
  | snapFailed (e : SnapError)
  | invalidWindow
  | futureWindow
deriving DecidableEq

/-- The scoring loop of `EvaluateRound.run` (lines 40-74): `pc sym` is the
per-symbol price-change computation over the snapped window, `none`
modelling the exception swallowed by the `try/except`.  `cache` and
`failed` mirror `asset_cache` and `failed_assets`. -/
def evalLoop (pc : String → Option ℚ) :
    List Observation → List (String × ℚ) → List String → List RoundAgentScore
  | [], _, _ => []
  | o :: rest, cache, failed =>
    let sym := normSym o.asset_symbol
    if sym = "" then evalLoop pc rest cache failed
    else match o.zi_score with
    | none => evalLoop pc rest cache failed
    | some z =>
      if sym ∈ failed then evalLoop pc rest cache failed
      else match cacheLookup cache sym with
      | some v =>
        if pyFalsy o.id then evalLoop pc rest cache failed
        else ⟨o.agent_id, o.id.getD "", v * (z : ℚ)⟩ :: evalLoop pc rest cache failed
      | none =>
        match pc sym with
        | none => evalLoop pc rest cache (sym :: failed)
        | some v =>
          if pyFalsy o.id then evalLoop pc rest ((sym, v) :: cache) failed
          else ⟨o.agent_id, o.id.getD "", v * (z : ℚ)⟩ ::
            evalLoop pc rest ((sym, v) :: cache) failed

/-- Whether an observation is scoreable and, if so, the row it yields:
the functional summary of one `evalLoop` iteration against a pure
price-change oracle (the per-call cache of the source is observationally
equivalent to consulting `pc` directly, proved below). -/
def scoreOf (pc : String → Option ℚ) (o : Observation) : Option RoundAgentScore :=
  let sym := normSym o.asset_symbol
  if sym = "" then none
  else match o.zi_score with
  | none => none
  | some z =>
    match pc sym with
    | none => none
    | some v =>
      if pyFalsy o.id then none
      else some ⟨o.agent_id, o.id.getD "", v * (z : ℚ)⟩

/-- `EvaluateRound.run`.  `store` is `observations.list_in_window`, `pc`
is `indicators.get_price_change` projected to its `pct_change` (with
`none` for any raised exception), `now` is `datetime.now(utc)`.
Best-effort persistence (lines 79-83) has no effect on the returned
value and is not modelled. -/
def EvaluateRound.run (store : Int → Int → List Observation)
    (pc : String → Int → Int → Option ℚ) (now : Int) (round : Round)
    (timeframe : String) : Except EvalError RoundEvaluation :=
  match snap_to_interval round.window_start timeframe .floor with
  | .error e => .error (.snapFailed e)
  | .ok snapped_start =>
    match snap_to_interval round.window_end timeframe .floor with
    | .error e => .error (.snapFailed e)
    | .ok snapped_end =>
      if snapped_end ≤ snapped_start then .error .invalidWindow
      else if now < snapped_end then .error .futureWindow
      else
        let obs := store snapped_start snapped_end
        let pre := evalLoop (fun sym => pc sym snapped_start snapped_end) obs [] []
        let sorted := List.insertionSort (fun a b => b.score ≤ a.score) pre
        .ok ⟨round, sorted⟩

/-! ## `src/infrastructure/indicators/ccxt_service.py` -/

/-- `_OHLCV`: one candle (timestamp in epoch milliseconds). -/
structure OHLCV where
  ts_ms : Int
  opn : ℚ
  high : ℚ
  low : ℚ
  close : ℚ
  volume : ℚ
deriving DecidableEq

/-- Errors of the indicator operations (all `ValueError` in the source,
split by raise site). -/
inductive IndicatorError
  | invalidArgument
  | noData
  | insufficientData
  | unavailable
deriving DecidableEq

/-- `PriceChangeDTO` (from `src/application/ports.py`), timestamps kept
in epoch milliseconds. -/
structure PriceChangeDTO where
  start_ts : Int
  end_ts : Int
  start_price : ℚ
  end_price : ℚ
  abs_change : ℚ
  pct_change : ℚ
deriving DecidableEq

/-- `SMACrossDTO` (from `src/application/ports.py`). -/
structure SMACrossDTO where
  fast : ℚ
  slow : ℚ
  prev_fast : ℚ
  prev_slow : ℚ
  crossed : Option String
deriving DecidableEq

/-- `target_ms = ((t_ms - 1) // frame_ms) * frame_ms`: the target-candle
resolution expression shared by every indicator operation (Python `//` is
floor division, `Int.fdiv`). -/
def closedCandleTarget (t_ms frame_ms : Int) : Int :=
  ((t_ms - 1).fdiv frame_ms) * frame_ms

/-- The sort step of `_normalize_ohlcv` (rows arrive already typed in
this embedding; the source's row-shape filtering is the adapter's
parsing, its stable sort by timestamp is kept). -/
def normalizeCandles (rows : List OHLCV) : List OHLCV :=
  List.insertionSort (fun a b => a.ts_ms ≤ b.ts_ms) rows

/-- Value of the last row of `l` carrying timestamp `t` (Python dict
comprehension: later writes win). -/
def lastWithTs : List OHLCV → Int → Option OHLCV
  | [], _ => none
  | c :: rest, t =>
    match lastWithTs rest t with
    | some r => some r
    | none => if c.ts_ms = t then some c else none

/-- `_merge_ohlcv`: dict keyed by timestamp, `b` overwrites `a`, output
in ascending key order. -/
def mergeOhlcv (a b : List OHLCV) : List OHLCV :=
  let keys := ((a ++ b).map (·.ts_ms)).dedup
  (List.insertionSort (· ≤ ·) keys).filterMap (lastWithTs (a ++ b))

/-- `_price_at_or_before`: scan ascending, remember the last candle with
`ts_ms ≤ target`, stop at the first later candle. -/
def price_at_or_before : List OHLCV → Int → Option (Int × ℚ)
  | [], _ => none
  | c :: rest, target =>
    if c.ts_ms ≤ target then
      match price_at_or_before rest target with
      | some r => some r
      | none => some (c.ts_ms, c.close)
    else none

/-- `_index_of_ts`: index of the first candle with the given timestamp. -/
def index_of_ts : List OHLCV → Int → Option Nat
  | [], _ => none
  | c :: rest, t => if c.ts_ms = t then some 0 else (index_of_ts rest t).map (· + 1)

/-- `_sma_at_index`: mean of the `period` closes ending at `idx`
(inclusive); `none` when fewer than `period` closes precede. -/
def sma_at_index (closes : List ℚ) (period : ℕ) (idx : ℕ) : Option ℚ :=
  if idx + 1 < period then none
  else some (((closes.drop (idx + 1 - period)).take period).sum / (period : ℚ))

/-- Inner `compute_rsi` of `_rsi_series`. -/
def compute_rsi (ag al : ℚ) : ℚ :=
  if al = 0 then 100 else 100 - 100 / (1 + ag / al)

/-- One step of Wilder's smoothing: `(avg*(period-1) + new)/period`. -/
def wilderAvg (period : ℕ) (avg x : ℚ) : ℚ :=
  (avg * ((period : ℚ) - 1) + x) / (period : ℚ)

/-- `changes = [closes[i] - closes[i-1] for i in range(1, len(closes))]`. -/
def pairDiffs : List ℚ → List ℚ
  | a :: b :: rest => (b - a) :: pairDiffs (b :: rest)
  | _ => []

/-- The `for i in range(period+1, len(closes))` tail of `_rsi_series`:
consumes the remaining (gain, loss) pairs, threading the smoothed
averages. -/
def rsiRest (period : ℕ) (ag al : ℚ) : List (ℚ × ℚ) → List ℚ
  | [] => []
  | gl :: rest =>
    let ag2 := wilderAvg period ag gl.1
    let al2 := wilderAvg period al gl.2
    compute_rsi ag2 al2 :: rsiRest period ag2 al2 rest

/-- `_rsi_series`: `none` before index `period`, Wilder-smoothed RSI from
index `period` on; all-`none` when fewer than `period+1` closes. -/
def rsi_series (closes : List ℚ) (period : ℕ) : List (Option ℚ) :=
  if closes.length < period + 1 then List.replicate closes.length none
  else
    let changes := pairDiffs closes
    let gains := changes.map (fun ch => max ch 0)
    let losses := changes.map (fun ch => max (-ch) 0)
    let avg_gain := (gains.take period).sum / (period : ℚ)
    let avg_loss := (losses.take period).sum / (period : ℚ)
    List.replicate period none ++ some (compute_rsi avg_gain avg_loss) ::
      (rsiRest period avg_gain avg_loss ((gains.drop period).zip (losses.drop period))).map some

/-- Last-write-wins lookup in the `ts_to_rsi` dict. -/
def lookupLastQ : List (Int × ℚ) → Int → Option ℚ
  | [], _ => none
  | kv :: rest, t =>
    match lookupLastQ rest t with
    | some r => some r
    | none => if kv.1 = t then some kv.2 else none

/-- `get_rsi` after the target candle is resolved (lines 76-120): the
candle source is `fetch since limit`. -/
def rsi_from_target (fetch : Int → Int → List OHLCV) (target frame : Int)
    (period : ℕ) : Except IndicatorError ℚ :=
  let lookback := period * 3
  let since := target - (lookback : Int) * frame
  let limit := (lookback : Int) + 2
  let ohlcv0 := normalizeCandles (fetch since limit)
  if ohlcv0 = [] then .error .noData
  else
    let ohlcv := if ohlcv0.any (fun c => c.ts_ms = target) then ohlcv0
      else mergeOhlcv ohlcv0 (normalizeCandles (fetch target ((period : Int) + 2)))
    let timestamps := ohlcv.map (·.ts_ms)
    let rsiValues := rsi_series (ohlcv.map (·.close)) period
    if rsiValues.all (· = none) then .error .insufficientData
    else
      let pairs := (timestamps.zip rsiValues).filterMap
        (fun p => p.2.map (fun v => (p.1, v)))
      match lookupLastQ pairs target with
      | some v => .ok v
      | none =>
        match ((pairs.map Prod.fst).filter (fun t => decide (t ≤ target))).max? with
        | none => .error .unavailable
        | some m =>
          match lookupLastQ pairs m with
          | some v => .ok v
          | none => .error .unavailable

/-- `CcxtIndicatorService.get_rsi` (argument validation, then target
resolution, then the fetch/compute pipeline). -/
def get_rsi (fetch : Int → Int → List OHLCV) (at_ms frame_ms : Int)
    (period : ℕ) : Except IndicatorError ℚ :=
  if period = 0 then .error .invalidArgument
  else if frame_ms ≤ 0 then .error .invalidArgument
  else rsi_from_target fetch (closedCandleTarget at_ms frame_ms) frame_ms period

/-- `get_sma` after the target candle is resolved (lines 213-233). -/
def sma_from_target (fetch : Int → Int → List OHLCV) (target frame : Int)
    (period : ℕ) : Except IndicatorError ℚ :=
  let required := period
  let since := target - ((required - 1 : ℕ) : Int) * frame
  let limit := (required : Int) + 2
  let ohlcv0 := normalizeCandles (fetch since limit)
  let ohlcv := if ohlcv0.any (fun c => c.ts_ms = target) then ohlcv0
    else mergeOhlcv ohlcv0 (normalizeCandles (fetch target ((period : Int) + 2)))
  match index_of_ts ohlcv target with
  | none => .error .insufficientData
  | some idx =>
    if idx + 1 < period then .error .insufficientData
    else
      match sma_at_index (ohlcv.map (·.close)) period idx with
      | none => .error .unavailable
      | some v => .ok v

/-- `CcxtIndicatorService.get_sma`. -/
def get_sma (fetch : Int → Int → List OHLCV) (at_ms frame_ms : Int)
    (period : ℕ) : Except IndicatorError ℚ :=
  if period = 0 then .error .invalidArgument
  else sma_from_target fetch (closedCandleTarget at_ms frame_ms) frame_ms period

/-- `get_sma_cross` after the target candle is resolved (lines 264-304). -/
def smacross_from_target (fetch : Int → Int → List OHLCV) (target frame : Int)
    (fastP slowP : ℕ) : Except IndicatorError SMACrossDTO :=
  let required := slowP + 1
  let since := target - ((required - 1 : ℕ) : Int) * frame
  let limit := (required : Int) + 3
  let ohlcv0 := normalizeCandles (fetch since limit)
  let ohlcv := if ohlcv0.any (fun c => c.ts_ms = target) then ohlcv0
    else mergeOhlcv ohlcv0 (normalizeCandles (fetch target ((slowP : Int) + 3)))
  match index_of_ts ohlcv target with
  | none => .error .insufficientData
  | some idx =>
    if idx < slowP then .error .insufficientData
    else
      let closes := ohlcv.map (·.close)
      match sma_at_index closes fastP idx, sma_at_index closes slowP idx,
            sma_at_index closes fastP (idx - 1), sma_at_index closes slowP (idx - 1) with
      | some fc, some sc, some fp, some sp =>
        let crossed : Option String :=
          if fp < sp ∧ sc ≤ fc then some "bullish"
          else if sp < fp ∧ fc ≤ sc then some "bearish"
          else none
        .ok ⟨fc, sc, fp, sp, crossed⟩
      | _, _, _, _ => .error .insufficientData

/-- `CcxtIndicatorService.get_sma_cross`. -/
def get_sma_cross (fetch : Int → Int → List OHLCV) (at_ms frame_ms : Int)
    (fastP slowP : ℕ) : Except IndicatorError SMACrossDTO :=
  if fastP = 0 ∨ slowP = 0 then .error .invalidArgument
  else if slowP ≤ fastP then .error .invalidArgument
  else smacross_from_target fetch (closedCandleTarget at_ms frame_ms) frame_ms fastP slowP

/-- `get_price_change` after both targets are resolved (lines 152-187). -/
def price_change_from_targets (fetch : Int → Int → List OHLCV)
    (start_target end_target frame : Int) : Except IndicatorError PriceChangeDTO :=
  let padding : Int := 2
  let since := max 0 (start_target - padding * frame)
  let candles_needed := (end_target - since).fdiv frame + 2 + padding
  let ohlcv0 := normalizeCandles (fetch since candles_needed)
  let ohlcv := if ohlcv0.any (fun c => c.ts_ms = end_target) then ohlcv0
    else mergeOhlcv ohlcv0 (normalizeCandles (fetch end_target 3))
  match price_at_or_before ohlcv start_target, price_at_or_before ohlcv end_target with
  | some sp, some ep =>
    let abs_change := ep.2 - sp.2
    let pct_change : ℚ := if sp.2 ≠ 0 then abs_change / sp.2 * 100 else 0
    .ok ⟨sp.1, ep.1, sp.2, ep.2, abs_change, pct_change⟩
  | _, _ => .error .insufficientData

/-- `CcxtIndicatorService.get_price_change` (validation, independent
target resolution for the two bounds, then the pipeline). -/
def get_price_change (fetch : Int → Int → List OHLCV)
    (start_ms end_ms frame_ms : Int) : Except IndicatorError PriceChangeDTO :=
  if end_ms ≤ start_ms then .error .invalidArgument
  else if frame_ms ≤ 0 then .error .invalidArgument
  else price_change_from_targets fetch (closedCandleTarget start_ms frame_ms)
    (closedCandleTarget end_ms frame_ms) frame_ms

deriving instance DecidableEq for Except

/-! ## Concrete instances used by the witnesses -/

/-- An observation store with scoreable rows for BTC and ETH, a row whose
symbol has no price data (XRP), and rows missing the id, the symbol, or
the directional score. -/
def exampleStore : Int → Int → List Observation := fun _ _ =>
  [⟨some "o1", "a1", "e1", some "btc", "", some 2⟩,
   ⟨some "o2", "a2", "e1", some "BTC", "", some (-1)⟩,
   ⟨some "o3", "a3", "e2", some "eth", "", some 1⟩,
   ⟨some "o4", "a4", "e3", some "xrp", "", some 1⟩,
   ⟨none, "a5", "e4", some "BTC", "", some 2⟩,
   ⟨some "o6", "a6", "e5", none, "", some 1⟩,
   ⟨some "o7", "a7", "e6", some "BTC", "", none⟩]

/-- Price changes: +5% for BTC, -2% for ETH, failure for anything else. -/
def examplePc : String → Int → Int → Option ℚ := fun sym _ _ =>
  if sym = "BTC" then some 5 else if sym = "ETH" then some (-2) else none

/-- A round whose bounds are not on the one-hour grid. -/
def exampleRound : Round := ⟨"r1", 30, 7250⟩

/-- The evaluation the engine produces for the example round: scores
`10, -5, -2` sorted descending to `10, -2, -5`. -/
def exampleEval : RoundEvaluation :=
  ⟨exampleRound, [⟨"a1", "o1", 10⟩, ⟨"a3", "o3", -2⟩, ⟨"a2", "o2", -5⟩]⟩

/-! ## Helper lemmas about the grid arithmetic -/

/-- Flooring an instant to the grid lands on the grid. -/
theorem sub_self_emod_emod (a b : Int) : (a - a % b) % b = 0 := by
  rw [Int.sub_emod]
  simp

/-- Ceiling an instant to the grid lands on the grid. -/
theorem add_gap_emod (a b : Int) : (a + (b - a % b)) % b = 0 := by
  have h : a + (b - a % b) = (a - a % b) + 1 * b := by ring
  rw [h, Int.add_mul_emod_self, sub_self_emod_emod]

/-- Every `snap_to_interval` result is a grid multiple. -/
theorem snapVal_emod (ts step : Int) (mode : SnapMode) :
    snapVal ts step mode % step = 0 := by
  unfold snapVal
  cases mode with
  | floor => exact sub_self_emod_emod ts step
  | ceil =>
    dsimp only
    split
    · simpa using ‹ts % step = 0›
    · exact add_gap_emod ts step
  | nearest =>
    dsimp only
    split
    · exact sub_self_emod_emod ts step
    · exact add_gap_emod ts step

/-- Snapping an instant already on the grid returns it unchanged. -/
theorem snapVal_of_emod_eq_zero {ts step : Int} (h0 : 0 < step)
    (h : ts % step = 0) (mode : SnapMode) : snapVal ts step mode = ts := by
  unfold snapVal
  cases mode with
  | floor => simp [h]
  | ceil => simp [h]
  | nearest => simp [h, h0]

/-- Claim C6: snapping is idempotent — if `snap_to_interval` succeeds, the
result snapped again with the same frequency and mode is itself. -/
theorem snap_idempotent (ts y : Int) (freq : String) (mode : SnapMode)
    (h : snap_to_interval ts freq mode = .ok y) :
    snap_to_interval y freq mode = .ok y := by
  unfold snap_to_interval at h ⊢
  cases hp : parse_freq freq with
  | none => rw [hp] at h; simp at h
  | some step =>
    rw [hp] at h
    dsimp only at h ⊢
    by_cases hz : step = 0
    · simp [hz] at h
    · rw [if_neg hz] at h ⊢
      have hy : snapVal ts (step : Int) mode = y := by
        injection h
      have hstep : (0 : Int) < (step : Int) := by
        exact_mod_cast Nat.pos_of_ne_zero hz
      have hmod : y % (step : Int) = 0 := by
        rw [← hy]; exact snapVal_emod ts (step : Int) mode
      rw [snapVal_of_emod_eq_zero hstep hmod mode]

/-- Witness for C6 at 21:30 UTC, frequency `"1h"`, mode `nearest`. -/
theorem snap_idempotent_witness :
    snap_to_interval 77400 "1h" SnapMode.nearest = .ok 79200
    ∧ snap_to_interval 79200 "1h" SnapMode.nearest = .ok 79200 :=
  ⟨by decide, snap_idempotent 77400 79200 "1h" SnapMode.nearest (by decide)⟩

/-- Claim C9: a zero-valued frequency string such as `"0m"` parses
successfully to step `0`, and `snap_to_interval` then fails with the
`ZeroDivisionError` of `ts % step` — a different error from the
`InvalidFrequency` failure of malformed strings. -/
theorem zero_freq_zero_division (ts : Int) (mode : SnapMode) (freq : String)
    (h : parse_freq freq = some 0) :
    snap_to_interval ts freq mode = .error .zeroDivision
    ∧ SnapError.zeroDivision ≠ SnapError.invalidFreq
    ∧ parse_freq "0m" = some 0 ∧ parse_freq "0h" = some 0
    ∧ parse_freq "0d" = some 0 := by
  refine ⟨?_, by simp, by decide, by decide, by decide⟩
  unfold snap_to_interval
  rw [h]
  simp

/-- Witness for C9 with the concrete frequency `"0m"`. -/
theorem zero_freq_zero_division_witness :
    parse_freq "0m" = some 0
    ∧ (snap_to_interval 0 "0m" SnapMode.floor = .error .zeroDivision
       ∧ SnapError.zeroDivision ≠ SnapError.invalidFreq
       ∧ parse_freq "0m" = some 0 ∧ parse_freq "0h" = some 0
       ∧ parse_freq "0d" = some 0) :=
  ⟨by decide, zero_freq_zero_division 0 SnapMode.floor "0m" (by decide)⟩

/-- Claim C5: for a valid frequency with positive step `s`, `nearest`
snapping returns a grid multiple of `s` that is at least as close to the
input instant as every other grid multiple, and an instant exactly
halfway between two grid points snaps to the upper one (half-up rule). -/
theorem snap_nearest_closest (ts r : Int) (freq : String) (s : ℕ)
    (hs : parse_freq freq = some s) (h0 : 0 < s)
    (hr : snap_to_interval ts freq SnapMode.nearest = .ok r) :
    r % (s : Int) = 0
    ∧ (∀ g : Int, g % (s : Int) = 0 → |r - ts| ≤ |g - ts|)
    ∧ (2 * (ts % (s : Int)) = (s : Int) → r = ts + ((s : Int) - ts % (s : Int))) := by
  have hz : ¬ s = 0 := Nat.pos_iff_ne_zero.mp h0
  unfold snap_to_interval at hr
  rw [hs] at hr
  dsimp only at hr
  rw [if_neg hz] at hr
  have hval : snapVal ts (s : Int) SnapMode.nearest = r := by injection hr
  have hS : (0 : Int) < (s : Int) := by exact_mod_cast h0
  have h2 : 0 ≤ ts % (s : Int) := Int.emod_nonneg ts hS.ne'
  have h3 : ts % (s : Int) < (s : Int) := Int.emod_lt_of_pos ts hS
  have hdiv : (s : Int) * (ts / (s : Int)) + ts % (s : Int) = ts :=
    Int.ediv_add_emod ts (s : Int)
  refine ⟨?_, ?_, ?_⟩
  · rw [← hval]; exact snapVal_emod ts (s : Int) SnapMode.nearest
  · intro g hg
    obtain ⟨k, hk⟩ := Int.dvd_of_emod_eq_zero hg
    have hgts : g - ts = (s : Int) * (k - ts / (s : Int)) - ts % (s : Int) := by
      rw [hk]; ring_nf; linarith [hdiv]
    rw [← hval]
    unfold snapVal
    dsimp only
    by_cases hb : 2 * (ts % (s : Int)) < (s : Int)
    · rw [if_pos hb]
      have habs : |ts - ts % (s : Int) - ts| = ts % (s : Int) := by
        rw [show ts - ts % (s : Int) - ts = -(ts % (s : Int)) by ring, abs_neg,
          abs_of_nonneg h2]
      rw [habs]
      rcases le_or_lt (k - ts / (s : Int)) 0 with hj | hj
      · have hsj : (s : Int) * (k - ts / (s : Int)) ≤ 0 := by
          have := mul_le_mul_of_nonneg_left hj hS.le
          simpa using this
        have hle : ts % (s : Int) ≤ ts - g := by linarith [hgts]
        have := le_abs_self (ts - g)
        rw [abs_sub_comm] at this
        linarith
      · have hsj : (s : Int) ≤ (s : Int) * (k - ts / (s : Int)) :=
          le_mul_of_one_le_right hS.le hj
        have hle : (s : Int) - ts % (s : Int) ≤ g - ts := by linarith [hgts]
        have := le_abs_self (g - ts)
        linarith
    · rw [if_neg hb]
      have habs : |ts + ((s : Int) - ts % (s : Int)) - ts| = (s : Int) - ts % (s : Int) := by
        rw [show ts + ((s : Int) - ts % (s : Int)) - ts = (s : Int) - ts % (s : Int) by ring,
          abs_of_nonneg (by linarith)]
      rw [habs]
      rcases le_or_lt (k - ts / (s : Int)) 0 with hj | hj
      · have hsj : (s : Int) * (k - ts / (s : Int)) ≤ 0 := by
          have := mul_le_mul_of_nonneg_left hj hS.le
          simpa using this
        have hle : ts % (s : Int) ≤ ts - g := by linarith [hgts]
        have := le_abs_self (ts - g)
        rw [abs_sub_comm] at this
        linarith
      · have hsj : (s : Int) ≤ (s : Int) * (k - ts / (s : Int)) :=
          le_mul_of_one_le_right hS.le hj
        have hle : (s : Int) - ts % (s : Int) ≤ g - ts := by linarith [hgts]
        have := le_abs_self (g - ts)
        linarith
  · intro htie
    rw [← hval]
    unfold snapVal
    dsimp only
    rw [if_neg (by omega)]

/-- Witness for C5: 21:30 with `"1h"` snaps to 22:00 (a half-interval
tie, rounded up), and noon with `"1d"` snaps to the next midnight. -/
theorem snap_nearest_closest_witness :
    parse_freq "1h" = some 3600 ∧ 0 < 3600
    ∧ snap_to_interval 77400 "1h" SnapMode.nearest = .ok 79200
    ∧ snap_to_interval 43200 "1d" SnapMode.nearest = .ok 86400
    ∧ ((79200 : Int) % (3600 : Int) = 0
       ∧ (∀ g : Int, g % ((3600 : ℕ) : Int) = 0 → |(79200 : Int) - 77400| ≤ |g - 77400|)
       ∧ (2 * ((77400 : Int) % (3600 : Int)) = (3600 : Int) →
          (79200 : Int) = 77400 + ((3600 : Int) - 77400 % 3600))) :=
  ⟨by decide, by decide, by decide, by decide,
    by
      have h := snap_nearest_closest 77400 79200 "1h" 3600 (by decide) (by decide) (by decide)
      exact_mod_cast h⟩

/-- Claim C2: with a positive frame length, the shared resolution
expression `((at_ms - 1) // frame_ms) * frame_ms` yields the largest grid
multiple strictly before `at` (the last candle already fully closed), an
instant exactly on a grid boundary resolves one full frame earlier, and
every indicator operation resolves its target (each bound independently
for `get_price_change`) through exactly this expression. -/
theorem closed_candle_target_resolution (at_ms frame_ms : Int)
    (h : 0 < frame_ms) :
    (closedCandleTarget at_ms frame_ms % frame_ms = 0
     ∧ closedCandleTarget at_ms frame_ms < at_ms
     ∧ at_ms ≤ closedCandleTarget at_ms frame_ms + frame_ms)
    ∧ (at_ms % frame_ms = 0 →
       closedCandleTarget at_ms frame_ms = at_ms - frame_ms)
    ∧ (∀ fetch (period : ℕ), period ≠ 0 →
       get_rsi fetch at_ms frame_ms period
         = rsi_from_target fetch (closedCandleTarget at_ms frame_ms) frame_ms period)
    ∧ (∀ fetch (period : ℕ), period ≠ 0 →
       get_sma fetch at_ms frame_ms period
         = sma_from_target fetch (closedCandleTarget at_ms frame_ms) frame_ms period)
    ∧ (∀ fetch (fastP slowP : ℕ), fastP ≠ 0 → slowP ≠ 0 → fastP < slowP →
       get_sma_cross fetch at_ms frame_ms fastP slowP
         = smacross_from_target fetch (closedCandleTarget at_ms frame_ms) frame_ms fastP slowP)
    ∧ (∀ fetch start_ms, start_ms < at_ms →
       get_price_change fetch start_ms at_ms frame_ms
         = price_change_from_targets fetch (closedCandleTarget start_ms frame_ms)
             (closedCandleTarget at_ms frame_ms) frame_ms) := by
  have h2 : 0 ≤ (at_ms - 1) % frame_ms := Int.emod_nonneg _ h.ne'
  have h3 : (at_ms - 1) % frame_ms < frame_ms := Int.emod_lt_of_pos _ h
  have hdiv : frame_ms * ((at_ms - 1) / frame_ms) + (at_ms - 1) % frame_ms = at_ms - 1 :=
    Int.ediv_add_emod (at_ms - 1) frame_ms
  have ht : closedCandleTarget at_ms frame_ms = at_ms - 1 - (at_ms - 1) % frame_ms := by
    unfold closedCandleTarget
    rw [Int.fdiv_eq_ediv _ h.le, mul_comm]
    linarith
  refine ⟨⟨?_, ?_, ?_⟩, ?_, ?_, ?_, ?_, ?_⟩
  · unfold closedCandleTarget
    rw [Int.fdiv_eq_ediv _ h.le]
    exact Int.mul_emod_left _ _
  · rw [ht]; linarith
  · rw [ht]; linarith
  · intro hb
    obtain ⟨m, hm⟩ := Int.dvd_of_emod_eq_zero hb
    have hmod : (at_ms - 1) % frame_ms = frame_ms - 1 := by
      have e1 : at_ms - 1 = -1 + m * frame_ms := by rw [hm]; ring
      rw [e1, Int.add_mul_emod_self]
      have e2 : (-1 : Int) % frame_ms = (frame_ms - 1) % frame_ms := by
        rw [show frame_ms - 1 = -1 + 1 * frame_ms by ring, Int.add_mul_emod_self]
      rw [e2, Int.emod_eq_of_lt (by linarith) (by linarith)]
    rw [ht, hmod]; ring
  · intro fetch period hp
    unfold get_rsi
    rw [if_neg hp, if_neg (by omega)]
  · intro fetch period hp
    unfold get_sma
    rw [if_neg hp]
  · intro fetch fastP slowP hf hsl hlt
    unfold get_sma_cross
    rw [if_neg (by simp [hf, hsl]), if_neg (by omega)]
  · intro fetch start_ms hlt
    unfold get_price_change
    rw [if_neg (by omega), if_neg (by omega)]

/-- Witness for C2 at a one-hour frame (3.6e6 ms) and an instant exactly
on the grid boundary. -/
theorem closed_candle_target_resolution_witness :
    (0 : Int) < 3600000
    ∧ ((closedCandleTarget 7200000 3600000 % 3600000 = 0
        ∧ closedCandleTarget 7200000 3600000 < 7200000
        ∧ (7200000 : Int) ≤ closedCandleTarget 7200000 3600000 + 3600000)
       ∧ ((7200000 : Int) % 3600000 = 0 →
          closedCandleTarget 7200000 3600000 = 7200000 - 3600000)
       ∧ (∀ fetch (period : ℕ), period ≠ 0 →
          get_rsi fetch 7200000 3600000 period
            = rsi_from_target fetch (closedCandleTarget 7200000 3600000) 3600000 period)
       ∧ (∀ fetch (period : ℕ), period ≠ 0 →
          get_sma fetch 7200000 3600000 period
            = sma_from_target fetch (closedCandleTarget 7200000 3600000) 3600000 period)
       ∧ (∀ fetch (fastP slowP : ℕ), fastP ≠ 0 → slowP ≠ 0 → fastP < slowP →
          get_sma_cross fetch 7200000 3600000 fastP slowP
            = smacross_from_target fetch (closedCandleTarget 7200000 3600000) 3600000 fastP slowP)
       ∧ (∀ fetch start_ms, start_ms < (7200000 : Int) →
          get_price_change fetch start_ms 7200000 3600000
            = price_change_from_targets fetch (closedCandleTarget start_ms 3600000)
                (closedCandleTarget 7200000 3600000) 3600000)) :=
  ⟨by decide, closed_candle_target_resolution 7200000 3600000 (by decide)⟩

/-- Claim C4: whenever `get_price_change` succeeds, its percentage change
is `(end_price - start_price) / start_price * 100` for a nonzero resolved
start price and exactly `0` when the resolved start price is `0`; the
zero case is guarded, so the operation never faults on division. -/
theorem price_change_guarded_division (fetch : Int → Int → List OHLCV)
    (start_ms end_ms frame_ms : Int) (dto : PriceChangeDTO)
    (h : get_price_change fetch start_ms end_ms frame_ms = .ok dto) :
    (dto.start_price ≠ 0 →
     dto.pct_change = (dto.end_price - dto.start_price) / dto.start_price * 100)
    ∧ (dto.start_price = 0 → dto.pct_change = 0)
    ∧ dto.abs_change = dto.end_price - dto.start_price := by
  unfold get_price_change at h
  split at h
  · simp at h
  split at h
  · simp at h
  · unfold price_change_from_targets at h
    dsimp only at h
    split at h
    case h_2 => simp at h
    case h_1 sp ep hsp hep =>
      injection h with h'
      subst h'
      refine ⟨fun hnz => ?_, fun hz => ?_, rfl⟩
      · show (if sp.2 ≠ 0 then (ep.2 - sp.2) / sp.2 * 100 else 0) = (ep.2 - sp.2) / sp.2 * 100
        rw [if_pos hnz]
      · show (if sp.2 ≠ 0 then (ep.2 - sp.2) / sp.2 * 100 else 0) = 0
        rw [if_neg (not_not_intro hz)]

/-- Witness for C4: two candles with closes 100 and 110 over a 10 ms
frame give `pct_change = 10`; the start-price-zero variant gives `0`. -/
theorem price_change_guarded_division_witness :
    get_price_change (fun _ _ => [⟨10, 100, 100, 100, 100, 1⟩, ⟨20, 110, 110, 110, 110, 1⟩])
        11 21 10 = .ok ⟨10, 20, 100, 110, 10, 10⟩
    ∧ (((10 : ℚ) ≠ 0 → (10 : ℚ) = ((110 : ℚ) - 100) / 100 * 100)
       ∧ ((100 : ℚ) = 0 → (10 : ℚ) = 0)
       ∧ (10 : ℚ) = (110 : ℚ) - 100)
    ∧ get_price_change (fun _ _ => [⟨10, 0, 0, 0, 0, 1⟩, ⟨20, 1, 1, 1, 1, 1⟩])
        11 21 10 = .ok ⟨10, 20, 0, 1, 1, 0⟩ := by
  have hc : get_price_change
      (fun _ _ => [⟨10, 100, 100, 100, 100, 1⟩, ⟨20, 110, 110, 110, 110, 1⟩])
      11 21 10 = .ok ⟨10, 20, 100, 110, 10, 10⟩ := by
    simp only [get_price_change, price_change_from_targets, closedCandleTarget]
    norm_num [Int.fdiv, normalizeCandles, price_at_or_before, mergeOhlcv, lastWithTs]
  have hz : get_price_change
      (fun _ _ => [⟨10, 0, 0, 0, 0, 1⟩, ⟨20, 1, 1, 1, 1, 1⟩])
      11 21 10 = .ok ⟨10, 20, 0, 1, 1, 0⟩ := by
    simp only [get_price_change, price_change_from_targets, closedCandleTarget]
    norm_num [Int.fdiv, normalizeCandles, price_at_or_before, mergeOhlcv, lastWithTs]
  have h := price_change_guarded_division
    (fun _ _ => [⟨10, 100, 100, 100, 100, 1⟩, ⟨20, 110, 110, 110, 110, 1⟩])
    11 21 10 ⟨10, 20, 100, 110, 10, 10⟩ hc
  exact ⟨hc, ⟨fun _ => h.1 (by norm_num), fun hzz => absurd hzz (by norm_num), h.2.2⟩, hz⟩

/-- `compute_rsi` of nonnegative averages lies in `[0, 100]`. -/
theorem compute_rsi_mem_Icc {ag al : ℚ} (hag : 0 ≤ ag) (hal : 0 ≤ al) :
    0 ≤ compute_rsi ag al ∧ compute_rsi ag al ≤ 100 := by
  unfold compute_rsi
  split
  · norm_num
  · rename_i hne
    have hpos : 0 < al := lt_of_le_of_ne hal (Ne.symm hne)
    have hrs : 0 ≤ ag / al := div_nonneg hag hpos.le
    have h2 : 100 / (1 + ag / al) ≤ 100 := div_le_self (by norm_num) (by linarith)
    have h3 : 0 < 100 / (1 + ag / al) := by positivity
    constructor <;> linarith

/-- Wilder's smoothing keeps averages nonnegative. -/
theorem wilderAvg_nonneg {period : ℕ} (hp : 0 < period) {avg x : ℚ}
    (h1 : 0 ≤ avg) (h2 : 0 ≤ x) : 0 ≤ wilderAvg period avg x := by
  unfold wilderAvg
  have hP : (1 : ℚ) ≤ (period : ℚ) := by exact_mod_cast hp
  have := mul_nonneg h1 (by linarith : (0 : ℚ) ≤ (period : ℚ) - 1)
  positivity

/-- Every value produced by the smoothing loop on nonnegative gain/loss
pairs lies in `[0, 100]`. -/
theorem rsiRest_mem_Icc {period : ℕ} (hp : 0 < period) :
    ∀ (pairs : List (ℚ × ℚ)) (ag al : ℚ), 0 ≤ ag → 0 ≤ al →
    (∀ p ∈ pairs, 0 ≤ p.1 ∧ 0 ≤ p.2) →
    ∀ x ∈ rsiRest period ag al pairs, 0 ≤ x ∧ x ≤ 100 := by
  intro pairs
  induction pairs with
  | nil => intro ag al _ _ _ x hx; simp [rsiRest] at hx
  | cons gl rest ih =>
    intro ag al hag hal hpair x hx
    have hgl := hpair gl (by simp)
    rw [rsiRest] at hx
    rcases List.mem_cons.mp hx with h | h
    · subst h
      exact compute_rsi_mem_Icc (wilderAvg_nonneg hp hag hgl.1)
        (wilderAvg_nonneg hp hal hgl.2)
    · exact ih _ _ (wilderAvg_nonneg hp hag hgl.1) (wilderAvg_nonneg hp hal hgl.2)
        (fun p hpmem => hpair p (List.mem_cons_of_mem _ hpmem)) x h

/-- With a zero loss average and all-zero losses, the loop emits `100`
everywhere. -/
theorem rsiRest_all_100 (period : ℕ) :
    ∀ (pairs : List (ℚ × ℚ)) (ag : ℚ), (∀ p ∈ pairs, p.2 = 0) →
    ∀ x ∈ rsiRest period ag 0 pairs, x = 100 := by
  intro pairs
  induction pairs with
  | nil => intro ag _ x hx; simp [rsiRest] at hx
  | cons gl rest ih =>
    intro ag hz x hx
    have hgl : gl.2 = 0 := hz gl (by simp)
    have hal2 : wilderAvg period 0 gl.2 = 0 := by
      rw [hgl]; unfold wilderAvg; simp
    rw [rsiRest] at hx
    rw [hal2] at hx
    rcases List.mem_cons.mp hx with h | h
    · subst h
      unfold compute_rsi
      rw [if_pos rfl]
    · exact ih (wilderAvg period ag gl.1)
        (fun p hpmem => hz p (List.mem_cons_of_mem _ hpmem)) x h

/-- A weakly increasing closes series has only nonnegative deltas. -/
theorem pairDiffs_nonneg : ∀ (closes : List ℚ), closes.Chain' (· ≤ ·) →
    ∀ d ∈ pairDiffs closes, 0 ≤ d
  | [], _, d, hd => by simp [pairDiffs] at hd
  | [a], _, d, hd => by simp [pairDiffs] at hd
  | a :: b :: rest, hc, d, hd => by
    rw [List.chain'_cons] at hc
    rw [pairDiffs] at hd
    rcases List.mem_cons.mp hd with h | h
    · subst h; linarith [hc.1]
    · exact pairDiffs_nonneg (b :: rest) hc.2 d h

/-- Claim C3: every non-`none` value of the Wilder-smoothed RSI series
lies in `[0, 100]`; an exactly-zero smoothed average loss yields exactly
`100`; and a closes series whose deltas are all nonnegative produces only
the value `100`. -/
theorem rsi_series_bounded (closes : List ℚ) (period : ℕ) (hp : 0 < period) :
    (∀ x : ℚ, some x ∈ rsi_series closes period → 0 ≤ x ∧ x ≤ 100)
    ∧ (∀ ag : ℚ, compute_rsi ag 0 = 100)
    ∧ (closes.Chain' (· ≤ ·) →
       ∀ x : ℚ, some x ∈ rsi_series closes period → x = 100) := by
  have hcr : ∀ ag : ℚ, compute_rsi ag 0 = 100 := by
    intro ag; unfold compute_rsi; rw [if_pos rfl]
  by_cases hlen : closes.length < period + 1
  · refine ⟨?_, hcr, fun _ => ?_⟩ <;>
    · intro x hx
      unfold rsi_series at hx
      rw [if_pos hlen] at hx
      exact absurd (List.eq_of_mem_replicate hx) (by simp)
  · set changes := pairDiffs closes with hchanges
    set gains := changes.map (fun ch => max ch 0) with hgains
    set losses := changes.map (fun ch => max (-ch) 0) with hlosses
    have hgain_nonneg : ∀ g ∈ gains, 0 ≤ g := by
      intro g hg
      rw [hgains] at hg
      obtain ⟨ch, _, rfl⟩ := List.mem_map.mp hg
      exact le_max_right ch 0
    have hloss_nonneg : ∀ l ∈ losses, 0 ≤ l := by
      intro l hl
      rw [hlosses] at hl
      obtain ⟨ch, _, rfl⟩ := List.mem_map.mp hl
      exact le_max_right (-ch) 0
    have hag : 0 ≤ (gains.take period).sum / (period : ℚ) := by
      apply div_nonneg
      · exact List.sum_nonneg fun g hg => hgain_nonneg g (List.take_subset _ _ hg)
      · positivity
    have hal : 0 ≤ (losses.take period).sum / (period : ℚ) := by
      apply div_nonneg
      · exact List.sum_nonneg fun l hl => hloss_nonneg l (List.take_subset _ _ hl)
      · positivity
    have hpairs : ∀ p ∈ (gains.drop period).zip (losses.drop period),
        0 ≤ p.1 ∧ 0 ≤ p.2 := by
      rintro ⟨g, l⟩ hp
      obtain ⟨hg, hl⟩ := List.of_mem_zip hp
      exact ⟨hgain_nonneg g (List.drop_subset _ _ hg),
        hloss_nonneg l (List.drop_subset _ _ hl)⟩
    have hmem : ∀ x : ℚ, some x ∈ rsi_series closes period →
        x = compute_rsi ((gains.take period).sum / (period : ℚ))
              ((losses.take period).sum / (period : ℚ))
        ∨ x ∈ rsiRest period ((gains.take period).sum / (period : ℚ))
              ((losses.take period).sum / (period : ℚ))
              ((gains.drop period).zip (losses.drop period)) := by
      intro x hx
      unfold rsi_series at hx
      rw [if_neg hlen] at hx
      dsimp only at hx
      rcases List.mem_append.mp hx with h | h
      · exact absurd (List.eq_of_mem_replicate h) (by simp)
      · rcases List.mem_cons.mp h with h | h
        · exact Or.inl (by injection h)
        · obtain ⟨y, hy, hyx⟩ := List.mem_map.mp h
          injection hyx with hyx
          exact Or.inr (hyx ▸ hy)
    refine ⟨?_, hcr, ?_⟩
    · intro x hx
      rcases hmem x hx with h | h
      · rw [h]; exact compute_rsi_mem_Icc hag hal
      · exact rsiRest_mem_Icc hp _ _ _ hag hal hpairs x h
    · intro hmono x hx
      have hd := pairDiffs_nonneg closes hmono
      have hloss_zero : ∀ l ∈ losses, l = 0 := by
        intro l hl
        rw [hlosses] at hl
        obtain ⟨ch, hch, rfl⟩ := List.mem_map.mp hl
        exact max_eq_right (neg_nonpos.mpr (hd ch hch))
      have hsum : (losses.take period).sum = 0 :=
        List.sum_eq_zero fun l hl => hloss_zero l (List.take_subset _ _ hl)
      have hal0 : (losses.take period).sum / (period : ℚ) = 0 := by
        rw [hsum, zero_div]
      rcases hmem x hx with h | h
      · rw [h, hal0]; exact hcr _
      · rw [hal0] at h
        exact rsiRest_all_100 period _ _
          (fun p hp => by
            obtain ⟨_, hl⟩ := List.of_mem_zip hp
            exact hloss_zero p.2 (List.drop_subset _ _ hl)) x h

/-- Witness for C3 at `closes = [1, 2, 3]`, `period = 1` (weakly
increasing, so the whole series evaluates to `100`). -/
theorem rsi_series_bounded_witness :
    0 < 1
    ∧ ((∀ x : ℚ, some x ∈ rsi_series [1, 2, 3] 1 → 0 ≤ x ∧ x ≤ 100)
       ∧ (∀ ag : ℚ, compute_rsi ag 0 = 100)
       ∧ (List.Chain' (· ≤ ·) [(1 : ℚ), 2, 3] →
          ∀ x : ℚ, some x ∈ rsi_series [1, 2, 3] 1 → x = 100))
    ∧ rsi_series [(1 : ℚ), 2, 3] 1 = [none, some 100, some 100] :=
  ⟨by norm_num, rsi_series_bounded [1, 2, 3] 1 (by norm_num),
    by norm_num [rsi_series, pairDiffs, rsiRest, wilderAvg, compute_rsi,
      List.replicate]⟩

/-! ## Helper lemmas for the frequency grammar -/

/-- A regex digit is never a regex whitespace character. -/
theorem not_space_of_digit {c : Char} (h : isDigitChar c = true) :
    isSpaceChar c = false := by
  by_contra hc
  have hs : isSpaceChar c = true := by
    cases hx : isSpaceChar c
    · exact absurd hx hc
    · rfl
  unfold isSpaceChar at hs
  simp only [Bool.or_eq_true, beq_iff_eq] at hs
  rcases hs with ((((h1 | h1) | h1) | h1) | h1) | h1 <;> subst h1 <;>
    exact absurd h (by decide)

/-- A unit character is never a regex whitespace character. -/
theorem not_space_of_unit {u : Char} (h : (unitSeconds u).isSome) :
    isSpaceChar u = false := by
  unfold unitSeconds at h
  split_ifs at h with h1 h2 h3
  · rcases h1 with h1 | h1 <;> subst h1 <;> decide
  · rcases h2 with h2 | h2 <;> subst h2 <;> decide
  · rcases h3 with h3 | h3 <;> subst h3 <;> decide
  · simp at h

/-- A unit character is never a regex digit. -/
theorem not_digit_of_unit {u : Char} (h : (unitSeconds u).isSome) :
    isDigitChar u = false := by
  unfold unitSeconds at h
  split_ifs at h with h1 h2 h3
  · rcases h1 with h1 | h1 <;> subst h1 <;> decide
  · rcases h2 with h2 | h2 <;> subst h2 <;> decide
  · rcases h3 with h3 | h3 <;> subst h3 <;> decide
  · simp at h

/-- Dropping a satisfied prefix skips it entirely. -/
theorem dropWhile_append_of_all {p : Char → Bool} :
    ∀ {w r : List Char}, (∀ c ∈ w, p c = true) →
    List.dropWhile p (w ++ r) = List.dropWhile p r := by
  intro w
  induction w with
  | nil => intro r _; rfl
  | cons c w ih =>
    intro r hall
    rw [List.cons_append, List.dropWhile_cons, if_pos (hall c (by simp))]
    exact ih fun d hd => hall d (List.mem_cons_of_mem _ hd)

/-- Taking across a satisfied prefix keeps it entirely. -/
theorem takeWhile_append_of_all {p : Char → Bool} :
    ∀ {w r : List Char}, (∀ c ∈ w, p c = true) →
    List.takeWhile p (w ++ r) = w ++ List.takeWhile p r := by
  intro w
  induction w with
  | nil => intro r _; rfl
  | cons c w ih =>
    intro r hall
    rw [List.cons_append, List.takeWhile_cons, if_pos (hall c (by simp))]
    rw [ih fun d hd => hall d (List.mem_cons_of_mem _ hd), List.cons_append]

/-- The parser's acceptance, stated as a decomposition of the input. -/
theorem parse_freq_isSome_iff (s : String) :
    (parse_freq s).isSome ↔ CodeFreqGrammar s := by
  constructor
  · intro h
    unfold parse_freq at h
    dsimp only at h
    by_cases hds : ((s.data.dropWhile isSpaceChar).takeWhile isDigitChar).isEmpty = true
    · rw [if_pos hds] at h; simp at h
    · rw [if_neg hds] at h
      cases hrest2 : ((s.data.dropWhile isSpaceChar).dropWhile isDigitChar).dropWhile isSpaceChar with
      | nil => rw [hrest2] at h; simp at h
      | cons u tail =>
        rw [hrest2] at h
        dsimp only at h
        cases hu : unitSeconds u with
        | none => rw [hu] at h; simp at h
        | some k =>
          rw [hu] at h
          dsimp only at h
          by_cases htail : tail.all isSpaceChar = true
          · refine ⟨s.data.takeWhile isSpaceChar,
              (s.data.dropWhile isSpaceChar).takeWhile isDigitChar,
              ((s.data.dropWhile isSpaceChar).dropWhile isDigitChar).takeWhile isSpaceChar,
              u, tail, ?_, ?_, ?_, ?_, ?_, ?_, ?_⟩
            · rw [List.append_assoc, List.append_assoc]
              conv_lhs => rw [← List.takeWhile_append_dropWhile (p := isSpaceChar) (l := s.data)]
              congr 1
              conv_lhs => rw [← List.takeWhile_append_dropWhile (p := isDigitChar)
                (l := s.data.dropWhile isSpaceChar)]
              congr 1
              conv_lhs => rw [← List.takeWhile_append_dropWhile (p := isSpaceChar)
                (l := (s.data.dropWhile isSpaceChar).dropWhile isDigitChar)]
              rw [hrest2]
            · exact fun c hc => List.mem_takeWhile_imp hc
            · intro he; rw [he] at hds; exact hds rfl
            · exact fun c hc => List.mem_takeWhile_imp hc
            · exact fun c hc => List.mem_takeWhile_imp hc
            · simp [hu]
            · exact fun c hc => List.all_eq_true.mp htail c hc
          · rw [if_neg htail] at h; simp at h
  · rintro ⟨w1, ds, w2, u, w3, heq, hw1, hdsne, hds, hw2, hu, hw3⟩
    cases ds with
    | nil => exact absurd rfl hdsne
    | cons d ds' =>
      have hd : isDigitChar d = true := hds d (by simp)
      have hw2d : ∀ c ∈ w2, isDigitChar c = false := by
        intro c hc
        by_contra hcd
        have : isDigitChar c = true := by
          cases hx : isDigitChar c
          · exact absurd hx hcd
          · rfl
        have := not_space_of_digit this
        rw [hw2 c hc] at this
        exact absurd this (by simp)
      have hcs : s.data.dropWhile isSpaceChar = d :: (ds' ++ (w2 ++ u :: w3)) := by
        rw [heq]
        simp only [List.append_assoc]
        rw [dropWhile_append_of_all hw1, List.cons_append,
          List.dropWhile_cons, if_neg (by rw [not_space_of_digit hd]; simp)]
      have htake : (s.data.dropWhile isSpaceChar).takeWhile isDigitChar = d :: ds' := by
        rw [hcs, show d :: (ds' ++ (w2 ++ u :: w3)) = (d :: ds') ++ (w2 ++ u :: w3) by simp,
          takeWhile_append_of_all hds]
        suffices hsuf : List.takeWhile isDigitChar (w2 ++ u :: w3) = [] by
          rw [hsuf, List.append_nil]
        cases w2 with
        | nil =>
          rw [List.nil_append, List.takeWhile_cons, if_neg (by rw [not_digit_of_unit hu]; simp)]
        | cons c w2' =>
          rw [List.cons_append, List.takeWhile_cons, if_neg (by rw [hw2d c (by simp)]; simp)]
      have hdrop : (s.data.dropWhile isSpaceChar).dropWhile isDigitChar = w2 ++ u :: w3 := by
        rw [hcs, show d :: (ds' ++ (w2 ++ u :: w3)) = (d :: ds') ++ (w2 ++ u :: w3) by simp,
          dropWhile_append_of_all hds]
        cases w2 with
        | nil =>
          rw [List.nil_append, List.dropWhile_cons, if_neg (by rw [not_digit_of_unit hu]; simp)]
        | cons c w2' =>
          rw [List.cons_append, List.dropWhile_cons, if_neg (by rw [hw2d c (by simp)]; simp)]
      have hrest2 : ((s.data.dropWhile isSpaceChar).dropWhile isDigitChar).dropWhile isSpaceChar
          = u :: w3 := by
        rw [hdrop, dropWhile_append_of_all hw2, List.dropWhile_cons,
          if_neg (by rw [not_space_of_unit hu]; simp)]
      obtain ⟨k, hk⟩ := Option.isSome_iff_exists.mp hu
      unfold parse_freq
      dsimp only
      rw [if_neg (by rw [htake]; simp), hrest2]
      dsimp only
      rw [hk]
      dsimp only
      rw [if_pos (List.all_eq_true.mpr hw3)]
      simp

/-- Counterexample for C7 as stated: the source regex allows whitespace
between the integer and the unit, so `"1 h"` parses (to 3600 seconds)
although it is not of the spec's stated shape. -/
theorem freq_parser_accepts_internal_whitespace :
    parse_freq "1 h" = some 3600 ∧ specFreqShape "1 h" = false := by
  constructor <;> decide

/-- Claim C7 (amended): the parser accepts exactly the strings of shape
optional whitespace, digits, optional whitespace, a unit in `{m,h,d}`
(case-insensitive), optional whitespace — including whitespace between
the integer and the unit; the documented positive and negative examples
behave as stated. -/
theorem freq_parser_grammar_characterization (s : String) :
    ((parse_freq s).isSome ↔ CodeFreqGrammar s)
    ∧ parse_freq "30m" = some 1800 ∧ parse_freq " 1H " = some 3600
    ∧ parse_freq "1d" = some 86400 ∧ parse_freq "24h" = some 86400
    ∧ parse_freq "1 h" = some 3600
    ∧ parse_freq "h" = none ∧ parse_freq "1x" = none
    ∧ parse_freq "-1h" = none ∧ parse_freq "1.5h" = none :=
  ⟨parse_freq_isSome_iff s, by decide, by decide, by decide, by decide,
    by decide, by decide, by decide, by decide, by decide⟩

/-! ## Characterisation of the scoring loop -/

/-- `scoreOf` unfolded: exactly when an observation yields a row. -/
theorem scoreOf_eq_some_iff (pc : String → Option ℚ) (o : Observation)
    (r : RoundAgentScore) :
    scoreOf pc o = some r ↔
    ∃ z v, normSym o.asset_symbol ≠ "" ∧ o.zi_score = some z
      ∧ pc (normSym o.asset_symbol) = some v ∧ pyFalsy o.id = false
      ∧ r = ⟨o.agent_id, o.id.getD "", v * (z : ℚ)⟩ := by
  unfold scoreOf
  dsimp only
  constructor
  · intro h
    by_cases hsym : normSym o.asset_symbol = ""
    · rw [if_pos hsym] at h; exact absurd h (by simp)
    · rw [if_neg hsym] at h
      cases hz : o.zi_score with
      | none => rw [hz] at h; exact absurd h (by simp)
      | some z =>
        rw [hz] at h
        dsimp only at h
        cases hpc : pc (normSym o.asset_symbol) with
        | none => rw [hpc] at h; exact absurd h (by simp)
        | some v =>
          rw [hpc] at h
          dsimp only at h
          by_cases hid : pyFalsy o.id = true
          · rw [if_pos hid] at h; exact absurd h (by simp)
          · rw [if_neg hid] at h
            injection h with h
            exact ⟨z, v, hsym, rfl, rfl, by simpa using hid, h.symm⟩
  · rintro ⟨z, v, hsym, hz, hpc, hid, rfl⟩
    rw [if_neg hsym, hz]
    dsimp only
    rw [hpc]
    dsimp only
    rw [if_neg (by simp [hid])]

/-- The stateful loop of `EvaluateRound.run` is extensionally the
per-observation `scoreOf` filter, provided the cache and failure set are
consistent with the price-change oracle. -/
theorem evalLoop_eq_filterMap (pc : String → Option ℚ) :
    ∀ (obs : List Observation) (cache : List (String × ℚ)) (failed : List String),
    (∀ s v, cacheLookup cache s = some v → pc s = some v) →
    (∀ s ∈ failed, pc s = none) →
    evalLoop pc obs cache failed = obs.filterMap (scoreOf pc) := by
  intro obs
  induction obs with
  | nil => intro cache failed _ _; rfl
  | cons o rest ih =>
    intro cache failed hc hf
    rw [List.filterMap_cons]
    simp only [evalLoop]
    by_cases hsym : normSym o.asset_symbol = ""
    · rw [if_pos hsym]
      rw [show scoreOf pc o = none by unfold scoreOf; rw [if_pos hsym]]
      exact ih cache failed hc hf
    · rw [if_neg hsym]
      cases hz : o.zi_score with
      | none =>
        rw [show scoreOf pc o = none by unfold scoreOf; rw [if_neg hsym, hz]]
        exact ih cache failed hc hf
      | some z =>
        dsimp only
        by_cases hfail : normSym o.asset_symbol ∈ failed
        · rw [if_pos hfail]
          rw [show scoreOf pc o = none by
            unfold scoreOf; rw [if_neg hsym, hz]; dsimp only; rw [hf _ hfail]]
          exact ih cache failed hc hf
        · rw [if_neg hfail]
          cases hcache : cacheLookup cache (normSym o.asset_symbol) with
          | some v =>
            have hpc := hc _ _ hcache
            dsimp only
            rw [show scoreOf pc o
                = if pyFalsy o.id then none
                  else some ⟨o.agent_id, o.id.getD "", v * (z : ℚ)⟩ by
              unfold scoreOf; rw [if_neg hsym, hz]; dsimp only; rw [hpc]]
            by_cases hid : pyFalsy o.id = true
            · rw [if_pos hid, if_pos hid]
              exact ih cache failed hc hf
            · rw [if_neg hid, if_neg hid]
              rw [ih cache failed hc hf]
          | none =>
            cases hpc : pc (normSym o.asset_symbol) with
            | none =>
              dsimp only
              rw [show scoreOf pc o = none by
                unfold scoreOf; rw [if_neg hsym, hz]; dsimp only; rw [hpc]]
              refine ih cache _ hc ?_
              intro t ht
              rcases List.mem_cons.mp ht with h | h
              · rw [h]; exact hpc
              · exact hf t h
            | some v =>
              dsimp only
              rw [show scoreOf pc o
                  = if pyFalsy o.id then none
                    else some ⟨o.agent_id, o.id.getD "", v * (z : ℚ)⟩ by
                unfold scoreOf; rw [if_neg hsym, hz]; dsimp only; rw [hpc]]
              have hc2 : ∀ s w, cacheLookup ((normSym o.asset_symbol, v) :: cache) s = some w →
                  pc s = some w := by
                intro t w hw
                unfold cacheLookup at hw
                by_cases hts : normSym o.asset_symbol = t
                · rw [if_pos hts] at hw
                  injection hw with hw
                  rw [← hts, hpc, hw]
                · rw [if_neg hts] at hw
                  exact hc t w hw
              by_cases hid : pyFalsy o.id = true
              · rw [if_pos hid, if_pos hid]
                exact ih _ failed hc2 hf
              · rw [if_neg hid, if_neg hid]
                rw [ih _ failed hc2 hf]

/-- A successful `EvaluateRound.run` embeds the caller's round and the
sorted filter of the snapped-window observations, and certifies the
window checks. -/
theorem runEval_ok_destruct (store : Int → Int → List Observation)
    (pc : String → Int → Int → Option ℚ) (now : Int) (round : Round)
    (tf : String) (s e : Int) (ev : RoundEvaluation)
    (hs : snap_to_interval round.window_start tf .floor = .ok s)
    (he : snap_to_interval round.window_end tf .floor = .ok e)
    (hr : EvaluateRound.run store pc now round tf = .ok ev) :
    ev = ⟨round, List.insertionSort (fun a b => b.score ≤ a.score)
           ((store s e).filterMap (scoreOf (fun sym => pc sym s e)))⟩
    ∧ s < e ∧ e ≤ now := by
  unfold EvaluateRound.run at hr
  rw [hs, he] at hr
  dsimp only at hr
  by_cases h1 : e ≤ s
  · rw [if_pos h1] at hr; exact absurd hr (by simp)
  · rw [if_neg h1] at hr
    by_cases h2 : now < e
    · rw [if_pos h2] at hr; exact absurd hr (by simp)
    · rw [if_neg h2] at hr
      injection hr with hr
      refine ⟨?_, by omega, by omega⟩
      rw [← hr, evalLoop_eq_filterMap _ _ [] [] (by intro t w hw; simp [cacheLookup] at hw)
        (by intro t ht; simp at ht)]

/-- The engine's output on the concrete example round. -/
theorem example_run_eq :
    EvaluateRound.run exampleStore examplePc 7200 exampleRound "1h" = .ok exampleEval := by
  simp only [EvaluateRound.run, exampleRound, exampleStore, examplePc, exampleEval,
    show snap_to_interval 30 "1h" SnapMode.floor = Except.ok 0 by decide,
    show snap_to_interval 7250 "1h" SnapMode.floor = Except.ok 7200 by decide]
  norm_num [evalLoop, show normSym (some "btc") = "BTC" from rfl,
    show normSym (some "BTC") = "BTC" from rfl,
    show normSym (some "eth") = "ETH" from rfl,
    show normSym (some "xrp") = "XRP" from rfl,
    show normSym (none : Option String) = "" from rfl,
    pyFalsy, cacheLookup]

/-- Claim C1: a row of the returned `agent_scores` only ever comes from a
stored observation with a nonempty normalised symbol, a present
directional score, a truthy id and a successful price change, with score
`pct_change * zi_score`; conversely every such observation is scored, so
one symbol's price-change failure neither blocks other symbols nor the
evaluation itself. -/
theorem round_eval_exclusions (store : Int → Int → List Observation)
    (pc : String → Int → Int → Option ℚ) (now : Int) (round : Round)
    (tf : String) (s e : Int) (ev : RoundEvaluation)
    (hs : snap_to_interval round.window_start tf .floor = .ok s)
    (he : snap_to_interval round.window_end tf .floor = .ok e)
    (hr : EvaluateRound.run store pc now round tf = .ok ev) :
    (∀ r ∈ ev.agent_scores, ∃ o ∈ store s e, ∃ z v,
        normSym o.asset_symbol ≠ "" ∧ o.zi_score = some z
        ∧ pc (normSym o.asset_symbol) s e = some v ∧ pyFalsy o.id = false
        ∧ r = ⟨o.agent_id, o.id.getD "", v * (z : ℚ)⟩)
    ∧ (∀ o ∈ store s e, ∀ z v, o.zi_score = some z →
        normSym o.asset_symbol ≠ "" → pyFalsy o.id = false →
        pc (normSym o.asset_symbol) s e = some v →
        (⟨o.agent_id, o.id.getD "", v * (z : ℚ)⟩ : RoundAgentScore) ∈ ev.agent_scores) := by
  obtain ⟨hev, -, -⟩ := runEval_ok_destruct store pc now round tf s e ev hs he hr
  constructor
  · intro r hrmem
    rw [hev] at hrmem
    dsimp only at hrmem
    obtain ⟨o, ho, hscore⟩ := List.mem_filterMap.mp ((List.mem_insertionSort _).mp hrmem)
    obtain ⟨z, v, hsym, hz, hpc, hid, hrow⟩ := (scoreOf_eq_some_iff _ o r).mp hscore
    exact ⟨o, ho, z, v, hsym, hz, hpc, hid, hrow⟩
  · intro o ho z v hz hsym hid hpc
    rw [hev]
    dsimp only
    exact (List.mem_insertionSort _).mpr (List.mem_filterMap.mpr
      ⟨o, ho, (scoreOf_eq_some_iff _ o _).mpr ⟨z, v, hsym, hz, hpc, hid, rfl⟩⟩)

/-- Witness for C1 on the example round: BTC rows score `5 * zi`, the ETH
row scores `-2`, the XRP row (failed price change) and the malformed rows
are excluded, and the run still succeeds. -/
theorem round_eval_exclusions_witness :
    snap_to_interval exampleRound.window_start "1h" SnapMode.floor = .ok 0
    ∧ snap_to_interval exampleRound.window_end "1h" SnapMode.floor = .ok 7200
    ∧ EvaluateRound.run exampleStore examplePc 7200 exampleRound "1h" = .ok exampleEval
    ∧ ((∀ r ∈ exampleEval.agent_scores, ∃ o ∈ exampleStore 0 7200, ∃ z v,
          normSym o.asset_symbol ≠ "" ∧ o.zi_score = some z
          ∧ examplePc (normSym o.asset_symbol) 0 7200 = some v ∧ pyFalsy o.id = false
          ∧ r = ⟨o.agent_id, o.id.getD "", v * (z : ℚ)⟩)
       ∧ (∀ o ∈ exampleStore 0 7200, ∀ z v, o.zi_score = some z →
          normSym o.asset_symbol ≠ "" → pyFalsy o.id = false →
          examplePc (normSym o.asset_symbol) 0 7200 = some v →
          (⟨o.agent_id, o.id.getD "", v * (z : ℚ)⟩ : RoundAgentScore)
            ∈ exampleEval.agent_scores)) :=
  ⟨by decide, by decide, example_run_eq,
    round_eval_exclusions exampleStore examplePc 7200 exampleRound "1h" 0 7200
      exampleEval (by decide) (by decide) example_run_eq⟩

/-- Claim C8: the returned `agent_scores` is a permutation of the
one-row-per-scored-observation list, is sorted by score descending, and
the stable sort preserves the observation store's input order among
equal-score rows (the filter at each score value is unchanged). -/
theorem agent_scores_sorted_stable (store : Int → Int → List Observation)
    (pc : String → Int → Int → Option ℚ) (now : Int) (round : Round)
    (tf : String) (s e : Int) (ev : RoundEvaluation)
    (hs : snap_to_interval round.window_start tf .floor = .ok s)
    (he : snap_to_interval round.window_end tf .floor = .ok e)
    (hr : EvaluateRound.run store pc now round tf = .ok ev) :
    ev.agent_scores.Perm ((store s e).filterMap (scoreOf fun sym => pc sym s e))
    ∧ ev.agent_scores.Pairwise (fun a b => b.score ≤ a.score)
    ∧ ∀ q : ℚ, ev.agent_scores.filter (fun r => decide (r.score = q))
        = ((store s e).filterMap (scoreOf fun sym => pc sym s e)).filter
            (fun r => decide (r.score = q)) := by
  obtain ⟨hev, -, -⟩ := runEval_ok_destruct store pc now round tf s e ev hs he hr
  have hagent : ev.agent_scores
      = List.insertionSort (fun a b => b.score ≤ a.score)
          ((store s e).filterMap (scoreOf fun sym => pc sym s e)) := by
    rw [hev]
  haveI : IsTotal RoundAgentScore (fun a b => b.score ≤ a.score) :=
    ⟨fun a b => le_total b.score a.score⟩
  haveI : IsTrans RoundAgentScore (fun a b => b.score ≤ a.score) :=
    ⟨fun _ _ _ hab hbc => le_trans hbc hab⟩
  refine ⟨?_, ?_, ?_⟩
  · rw [hagent]; exact List.perm_insertionSort _ _
  · rw [hagent]; exact List.sorted_insertionSort _ _
  · intro q
    rw [hagent]
    have hpair : (((store s e).filterMap (scoreOf fun sym => pc sym s e)).filter
        (fun r => decide (r.score = q))).Pairwise (fun a b => b.score ≤ a.score) := by
      apply List.pairwise_of_forall_mem_list
      intro a ha b hb
      have ha' : a.score = q := by simpa using (List.mem_filter.mp ha).2
      have hb' : b.score = q := by simpa using (List.mem_filter.mp hb).2
      rw [ha', hb']
    have hsub := (List.sublist_insertionSort hpair (List.filter_sublist _)).filter
      (fun r => decide (r.score = q))
    simp only [List.filter_filter, Bool.and_self] at hsub
    have hlen := (((List.perm_insertionSort (fun a b => b.score ≤ a.score)
      ((store s e).filterMap (scoreOf fun sym => pc sym s e))).filter
        (fun r => decide (r.score = q)))).length_eq
    exact (hsub.eq_of_length hlen.symm).symm

/-- Witness for C8: the example evaluation's rows `[10, -2, -5]` are the
descending stable sort of the loop's `[10, -5, -2]`. -/
theorem agent_scores_sorted_stable_witness :
    snap_to_interval exampleRound.window_start "1h" SnapMode.floor = .ok 0
    ∧ snap_to_interval exampleRound.window_end "1h" SnapMode.floor = .ok 7200
    ∧ EvaluateRound.run exampleStore examplePc 7200 exampleRound "1h" = .ok exampleEval
    ∧ (exampleEval.agent_scores.Perm
        ((exampleStore 0 7200).filterMap (scoreOf fun sym => examplePc sym 0 7200))
       ∧ exampleEval.agent_scores.Pairwise (fun a b => b.score ≤ a.score)
       ∧ ∀ q : ℚ, exampleEval.agent_scores.filter (fun r => decide (r.score = q))
           = ((exampleStore 0 7200).filterMap (scoreOf fun sym => examplePc sym 0 7200)).filter
               (fun r => decide (r.score = q))) :=
  ⟨by decide, by decide, example_run_eq,
    agent_scores_sorted_stable exampleStore examplePc 7200 exampleRound "1h" 0 7200
      exampleEval (by decide) (by decide) example_run_eq⟩

/-- Claim C10: a successful evaluation embeds the caller's original round
unchanged (key and unsnapped window bounds), while the observation query
and the price-change computation only ever see the floor-snapped bounds:
any store and price oracle agreeing on the snapped bounds produce the
same evaluation. -/
theorem round_embedded_unsnapped (store : Int → Int → List Observation)
    (pc : String → Int → Int → Option ℚ) (now : Int) (round : Round)
    (tf : String) (s e : Int) (ev : RoundEvaluation)
    (hs : snap_to_interval round.window_start tf .floor = .ok s)
    (he : snap_to_interval round.window_end tf .floor = .ok e)
    (hr : EvaluateRound.run store pc now round tf = .ok ev) :
    ev.round = round
    ∧ ∀ (store2 : Int → Int → List Observation)
        (pc2 : String → Int → Int → Option ℚ),
        store2 s e = store s e → (∀ sym, pc2 sym s e = pc sym s e) →
        EvaluateRound.run store2 pc2 now round tf = .ok ev := by
  obtain ⟨hev, h1, h2⟩ := runEval_ok_destruct store pc now round tf s e ev hs he hr
  constructor
  · rw [hev]
  · intro store2 pc2 hst hpc
    unfold EvaluateRound.run
    rw [hs, he]
    dsimp only
    rw [if_neg (by omega), if_neg (by omega), hst]
    rw [evalLoop_eq_filterMap _ _ [] [] (by intro t w hw; simp [cacheLookup] at hw)
      (by intro t ht; simp at ht)]
    rw [show (fun sym => pc2 sym s e) = (fun sym => pc sym s e) from funext hpc, hev]

/-- Witness for C10: the example round's unsnapped bounds (30 s and
7250 s) survive in the returned evaluation although the store and the
price oracle were queried at the snapped bounds 0 and 7200. -/
theorem round_embedded_unsnapped_witness :
    snap_to_interval exampleRound.window_start "1h" SnapMode.floor = .ok 0
    ∧ snap_to_interval exampleRound.window_end "1h" SnapMode.floor = .ok 7200
    ∧ EvaluateRound.run exampleStore examplePc 7200 exampleRound "1h" = .ok exampleEval
    ∧ (exampleEval.round = exampleRound
       ∧ ∀ (store2 : Int → Int → List Observation)
           (pc2 : String → Int → Int → Option ℚ),
           store2 0 7200 = exampleStore 0 7200 →
           (∀ sym, pc2 sym 0 7200 = examplePc sym 0 7200) →
           EvaluateRound.run store2 pc2 7200 exampleRound "1h" = .ok exampleEval) :=
  ⟨by decide, by decide, example_run_eq,
    round_embedded_unsnapped exampleStore examplePc 7200 exampleRound "1h" 0 7200
      exampleEval (by decide) (by decide) example_run_eq⟩

/-- Witness for the amended C7 at the concrete string `"30m"`. -/
theorem freq_parser_grammar_characterization_witness :
    ((parse_freq "30m").isSome ↔ CodeFreqGrammar "30m")
    ∧ parse_freq "30m" = some 1800 ∧ parse_freq " 1H " = some 3600
    ∧ parse_freq "1d" = some 86400 ∧ parse_freq "24h" = some 86400
    ∧ parse_freq "1 h" = some 3600
    ∧ parse_freq "h" = none ∧ parse_freq "1x" = none
    ∧ parse_freq "-1h" = none ∧ parse_freq "1.5h" = none :=
  freq_parser_grammar_characterization "30m"
